import Mathlib

/-!
A verification development for carver (main.go), a CLI tool that renders
lines of text over an image.  The Go code is shallowly embedded below:

* Go `image.Rectangle` and its operations become the `Rect` structure with
  integer (ℤ) coordinates and the exact normalization / intersection logic
  of the Go image package.
* Go `float64` configuration values (font size in points, DPI) are embedded
  as exact rationals (ℚ); the float64 → int conversion in
  `freetype.Context.PointToFixed` truncates toward zero, embedded as
  `truncQ`.  At every concrete input used in this development the float64
  computation and the exact rational computation agree.
* `freetype.Context.DrawString` performs glyph rasterization; only the
  returned pen position feeds back into the program logic, so a draw call
  is abstracted as a function from the line and the 26.6 fixed-point pen
  position to an optional resulting pen position (`none` embeds the error
  return, which the program treats as fatal).
* Process-level effects are embedded as the `ProgOut` outcome type:
  `usageExit` is printing the usage text and `os.Exit(2)`, `fatal` is
  `log.Fatal`, `reportOut s` is printing `s` to standard output with no
  file written, and `fileOut` carries the output file name, the canvas
  bounds and the composited destination rectangle.
-/

namespace Carver

/-- Go `image.Rectangle`: integer pixel bounds (Min, Max corners). -/
structure Rect where
  minX : ℤ
  minY : ℤ
  maxX : ℤ
  maxY : ℤ
deriving DecidableEq, Repr

/-- Go `image.Rectangle.Dx`: the width `Max.X - Min.X`. -/
def Rect.dx (r : Rect) : ℤ := r.maxX - r.minX

/-- Go `image.Rectangle.Dy`: the height `Max.Y - Min.Y`. -/
def Rect.dy (r : Rect) : ℤ := r.maxY - r.minY

/-- Go `image.Rectangle.Empty`: `Min.X >= Max.X || Min.Y >= Max.Y`. -/
def Rect.isEmpty (r : Rect) : Bool := r.maxX ≤ r.minX || r.maxY ≤ r.minY

/-- Go `image.ZR`, the zero rectangle. -/
def zeroRect : Rect := ⟨0, 0, 0, 0⟩

/-- Go `image.Rect(x0, y0, x1, y1)`: swaps coordinates so that min ≤ max. -/
def mkRect (x0 y0 x1 y1 : ℤ) : Rect :=
  ⟨if x0 > x1 then x1 else x0, if y0 > y1 then y1 else y0,
   if x0 > x1 then x0 else x1, if y0 > y1 then y0 else y1⟩

/-- Go `image.Rectangle.Intersect`: largest rectangle contained in both;
an empty result collapses to `image.ZR`. -/
def Rect.intersect (r s : Rect) : Rect :=
  if (Rect.mk (max r.minX s.minX) (max r.minY s.minY)
      (min r.maxX s.maxX) (min r.maxY s.maxY)).isEmpty
  then zeroRect
  else ⟨max r.minX s.minX, max r.minY s.minY, min r.maxX s.maxX, min r.maxY s.maxY⟩

/-- Truncation of a rational toward zero: the semantics of Go's
float64-to-integer conversion used in `fixed.Int26_6(x * ...)`. -/
def truncQ (q : ℚ) : ℤ := if 0 ≤ q then ⌊q⌋ else ⌈q⌉

/-- The rendering configuration relevant to geometry: the `-p` font size in
points and the `-d` DPI, both Go float64 flags embedded as rationals. -/
structure Ctx where
  fontSize : ℚ
  dpi : ℚ
deriving DecidableEq, Repr

/-- freetype `Context.PointToFixed(x)`:
`fixed.Int26_6(x * c.dpi * (64.0 / 72.0))`, a 26.6 fixed-point value. -/
def pointToFixed (c : Ctx) (x : ℚ) : ℤ := truncQ (x * c.dpi * (64 / 72))

/-- `fixed.Int26_6.Ceil`: `int((x + 0x3f) >> 6)`; the arithmetic right
shift is floor division by 64. -/
def ceil26 (v : ℤ) : ℤ := Int.fdiv (v + 63) 64

/-- Go `len(s)` for a string: the number of UTF-8 bytes. -/
def goLen (s : String) : ℕ := s.data.foldl (fun n ch => n + ch.utf8Size) 0

/-- The `maxLen` loop of `bounds` in main.go: the largest `len(line)`
(in bytes), starting from 0. -/
def maxLenGo (lines : List String) : ℕ :=
  lines.foldl (fun m l => if goLen l > m then goLen l else m) 0

/-- main.go `bounds(ctx, lines)`:
`po := ctx.PointToFixed(*fontSize)`, `vs := ctx.PointToFixed(*fontSize+2)`,
`dx := maxLen*po.Ceil() + 4*po.Ceil()`, `dy := len(lines)*vs.Ceil() + 4*po.Ceil()`,
returning `image.Rect(0, 0, dx, dy)`. -/
def boundsR (c : Ctx) (lines : List String) : Rect :=
  let po := ceil26 (pointToFixed c c.fontSize)
  let vs := ceil26 (pointToFixed c (c.fontSize + 2))
  mkRect 0 0 ((maxLenGo lines : ℤ) * po + 4 * po) ((lines.length : ℤ) * vs + 4 * po)

/-- The type abstracting `ctx.DrawString(line, p)`: from the line and the
26.6 fixed-point pen position to the resulting pen position, or `none`
for the error return. -/
abbrev AdvFn := String → ℤ × ℤ → Option (ℤ × ℤ)

/-- The drawing loop of main.go `render`: starting from pen `p` (initially
the fixed 16-pixel offset `freetype.Pt(16,16)` = `(1024, 1024)` in 26.6
units) and running bounds `bnds` (initially `(0, 0)`), each iteration does
`p.Y += vs`, draws, takes the maximum end-of-line X into `bnds.1` and sets
`bnds.2` to the current `p.Y`. -/
def renderLoop (vs : ℤ) (adv : AdvFn) :
    List String → ℤ × ℤ → ℤ × ℤ → Option (ℤ × ℤ)
  | [], _, bnds => some bnds
  | line :: rest, p, bnds =>
    let p2 : ℤ × ℤ := (p.1, p.2 + vs)
    match adv line p2 with
    | none => none
    | some p1 =>
      renderLoop vs adv rest p2 (if p1.1 > bnds.1 then p1.1 else bnds.1, p2.2)

/-- main.go `render(lines)`, modelled to the bounds of the image it
returns: the estimated image is allocated with `bounds`, the loop draws
the lines, then 1024 (16 pixels in 26.6 units) is added to both tracked
bounds as right and bottom margins, and the result is
`img.SubImage(image.Rect(0, 0, bX.Ceil(), bY.Ceil()))`, whose bounds are
the crop rectangle intersected with the estimated rectangle (`image.ZR`
when that intersection is empty, per `RGBA.SubImage`). -/
def render (c : Ctx) (adv : AdvFn) (lines : List String) : Option Rect :=
  match renderLoop (pointToFixed c (c.fontSize + 2)) adv lines (1024, 1024) (0, 0) with
  | none => none
  | some b =>
    some (Rect.intersect (mkRect 0 0 (ceil26 (b.1 + 1024)) (ceil26 (b.2 + 1024)))
      (boundsR c lines))

/-- The 3x3 anchor table of main.go `textRect`; Go integer division
truncates toward zero (`Int.tdiv`).  The `default` branch calls `usage()`,
which prints usage text and exits: embedded as `none`. -/
def anchorPt (ox oy : ℤ) (pos : String) : Option (ℤ × ℤ) :=
  if pos = "tl" then some (0, 0)
  else if pos = "tc" then some (Int.tdiv ox 2, 0)
  else if pos = "tr" then some (ox, 0)
  else if pos = "cl" then some (0, Int.tdiv oy 2)
  else if pos = "c" then some (Int.tdiv ox 2, Int.tdiv oy 2)
  else if pos = "cr" then some (ox, Int.tdiv oy 2)
  else if pos = "bl" then some (0, oy)
  else if pos = "bc" then some (Int.tdiv ox 2, oy)
  else if pos = "br" then some (ox, oy)
  else none

/-- main.go `textRect(dst, src, pos)`:
`ox := dst.Bounds().Max.X - src.Bounds().Dx()`,
`oy := dst.Bounds().Max.Y - src.Bounds().Dy()`, the anchor table point,
`ap := dst.Bounds().Min.Add(pt)`, and
`image.Rect(ap.X, ap.Y, ap.X+src.Bounds().Dx(), ap.Y+src.Bounds().Dy())`. -/
def textRect (dst src : Rect) (pos : String) : Option Rect :=
  match anchorPt (dst.maxX - src.dx) (dst.maxY - src.dy) pos with
  | none => none
  | some pt =>
    some (mkRect (dst.minX + pt.1) (dst.minY + pt.2)
      (dst.minX + pt.1 + src.dx) (dst.minY + pt.2 + src.dy))

/-- The hexadecimal digits accepted by fmt's %x verb for an unsigned
integer (both letter cases, per strconv.ParseUint with base 16). -/
def isHexDigitGo (ch : Char) : Bool :=
  (decide ('0' ≤ ch) && decide (ch ≤ '9')) ||
  (decide ('a' ≤ ch) && decide (ch ≤ 'f')) ||
  (decide ('A' ≤ ch) && decide (ch ≤ 'F'))

/-- The numeric value of a hexadecimal digit (0 on non-digits). -/
def hexVal (ch : Char) : ℕ :=
  if decide ('0' ≤ ch) && decide (ch ≤ '9') then ch.toNat - 48
  else if decide ('a' ≤ ch) && decide (ch ≤ 'f') then ch.toNat - 87
  else if decide ('A' ≤ ch) && decide (ch ≤ 'F') then ch.toNat - 55
  else 0

/-- The whitespace table of Go's fmt package (scan.go `space`): 0x09-0x0D,
space, U+0085, U+00A0, U+1680, U+2000-U+200A, U+2028-U+2029, U+202F,
U+205F, U+3000. -/
def isSpaceGo (ch : Char) : Bool :=
  (decide (9 ≤ ch.toNat) && decide (ch.toNat ≤ 13)) ||
  decide (ch.toNat = 32) || decide (ch.toNat = 133) || decide (ch.toNat = 160) ||
  decide (ch.toNat = 5760) ||
  (decide (8192 ≤ ch.toNat) && decide (ch.toNat ≤ 8202)) ||
  (decide (8232 ≤ ch.toNat) && decide (ch.toNat ≤ 8233)) ||
  decide (ch.toNat = 8239) || decide (ch.toNat = 8287) || decide (ch.toNat = 12288)

/-- fmt's `ss.SkipSpace` as run by Sscanf (`nlIsSpace = false`): leading
whitespace characters are consumed, but a newline met while skipping is
an "unexpected newline" scan error (`none`); a carriage return directly
before a newline is consumed first and the newline then raises the same
error, so any leading newline errors. -/
def skipSpaceScanf : List Char → Option (List Char)
  | [] => some []
  | ch :: rest =>
    if ch = '\n' then none
    else if isSpaceGo ch then skipSpaceScanf rest
    else some (ch :: rest)

/-- Go fmt.Sscanf(col, "%x", &c) for `var c uint32`, with the returned
error ignored (as in main.go): leading whitespace is skipped (a newline
there is a scan error), the maximal run of hexadecimal digits is read;
if the skip errored, there is no digit, or the digit string's value
overflows 32 bits (fmt's scan error paths), `c` is left at its zero
value. -/
def sscanHexU32 (s : String) : ℕ :=
  match skipSpaceScanf s.data with
  | none => 0
  | some cs =>
    let ds := cs.takeWhile isHexDigitGo
    if ds.isEmpty then 0
    else
      let v := ds.foldl (fun acc ch => 16 * acc + hexVal ch) 0
      if v < 4294967296 then v else 0

/-- Go `color.NRGBA`: four unsigned 8-bit channels, embedded as naturals. -/
structure NRGBA where
  r : ℕ
  g : ℕ
  b : ℕ
  a : ℕ
deriving DecidableEq, Repr

/-- main.go `allocColorImage(col)`: scans `col` with %x into a uint32 `c`
and builds `color.NRGBA{R: uint8((c >> 24) & 0xFF), G: uint8((c >> 16) & 0xFF),
B: uint8((c >> 8) & 0xFF), A: uint8(c & 0xFF)}` (the uniform image is
identified with its color). -/
def allocColorImage (col : String) : NRGBA :=
  let c := sscanHexU32 col
  ⟨(c >>> 24) &&& 255, (c >>> 16) &&& 255, (c >>> 8) &&& 255, c &&& 255⟩

/-- The lowercase hexadecimal digit character for a value below 16. -/
def hexDigitChar (d : ℕ) : Char :=
  if d < 10 then Char.ofNat (48 + d) else Char.ofNat (87 + d)

/-- Formatting four channel values back to 8 lowercase hexadecimal digits
(RRGGBBAA), the inverse direction of the color round-trip property. -/
def formatHex8 (col : NRGBA) : String :=
  let v := ((col.r * 256 + col.g) * 256 + col.b) * 256 + col.a
  String.mk ((List.range 8).map (fun i => hexDigitChar (v / 16 ^ (7 - i) % 16)))

/-- A well-formed color string: exactly 8 hexadecimal digits. -/
def wellFormed8 (s : String) : Prop :=
  s.data.length = 8 ∧ ∀ ch ∈ s.data, isHexDigitGo ch = true

/-- The observable outcome of one program run. -/
inductive ProgOut where
  | usageExit : ProgOut
  | fatal : ProgOut
  | reportOut : String → ProgOut
  | fileOut : String → Rect → Rect → ProgOut
deriving DecidableEq, Repr

/-- main.go `canvas(fname, bounds)`, modelled to the bounds of the image
it returns: with no input file, `image.NewRGBA(bounds)` keeps exactly
`bounds`; otherwise the bounds of the successfully decoded image
(`decoded`; a decoding failure is fatal and out of scope here). -/
def canvasRect (inFile : String) (decoded : Rect) (b : Rect) : Rect :=
  if inFile = "" then b else decoded

/-- main.go `main`, from after flag parsing, font loading and color
parsing (all successful), with the text already read into `lines`:
the missing-output-path usage check, `render`, then either the report
print `fmt.Printf("%dx%d", img.Bounds().Dx(), img.Bounds().Dy())` or
canvas acquisition, placement, compositing and the PNG write. -/
def mainModel (reportFlag : Bool) (outFile inFile anchorStr : String) (c : Ctx)
    (adv : AdvFn) (decoded : Rect) (lines : List String) : ProgOut :=
  if outFile = "" ∧ reportFlag = false then ProgOut.usageExit
  else
    match render c adv lines with
    | none => ProgOut.fatal
    | some imgR =>
      if reportFlag then ProgOut.reportOut (toString imgR.dx ++ "x" ++ toString imgR.dy)
      else
        let cimg := canvasRect inFile decoded imgR
        match textRect cimg imgR anchorStr with
        | none => ProgOut.usageExit
        | some r => ProgOut.fileOut outFile cimg r

/-- The nine valid anchor symbols. -/
def validAnchors : List String := ["tl", "tc", "tr", "cl", "c", "cr", "bl", "bc", "br"]

/-- The default configuration: font size 11 points, 96 DPI. -/
def defaultCtx : Ctx := ⟨11, 96⟩

/-- Modelled from the spec (§4.6): the claimed placement — horizontal
slack `ox = canvasWidth - textWidth`, vertical slack
`oy = canvasHeight - textHeight`, the 3x3 offset table with integer
division truncating toward zero, and the destination rectangle at that
offset with the text image's own width and height. -/
def placementSpec (canvasW canvasH textW textH : ℤ) (pos : String) : Option Rect :=
  let ox := canvasW - textW
  let oy := canvasH - textH
  if pos = "tl" then some ⟨0, 0, textW, textH⟩
  else if pos = "tc" then some ⟨Int.tdiv ox 2, 0, Int.tdiv ox 2 + textW, textH⟩
  else if pos = "tr" then some ⟨ox, 0, ox + textW, textH⟩
  else if pos = "cl" then some ⟨0, Int.tdiv oy 2, textW, Int.tdiv oy 2 + textH⟩
  else if pos = "c" then
    some ⟨Int.tdiv ox 2, Int.tdiv oy 2, Int.tdiv ox 2 + textW, Int.tdiv oy 2 + textH⟩
  else if pos = "cr" then some ⟨ox, Int.tdiv oy 2, ox + textW, Int.tdiv oy 2 + textH⟩
  else if pos = "bl" then some ⟨0, oy, textW, oy + textH⟩
  else if pos = "bc" then some ⟨Int.tdiv ox 2, oy, Int.tdiv ox 2 + textW, oy + textH⟩
  else if pos = "br" then some ⟨ox, oy, ox + textW, oy + textH⟩
  else none

/-- The character count of the longest line (0 if none): the quantity the
spec's bounds description names, as opposed to the byte count the code
uses. -/
def maxCharLen (lines : List String) : ℕ :=
  (lines.map String.length).foldr max 0

/-- The byte count of the longest line (0 if none), phrased as the spec
phrases its maximum (used for the amended bounds formula). -/
def maxByteLen (lines : List String) : ℕ :=
  (lines.map goLen).foldr max 0

/-! Helper lemmas. -/

theorem ceil26_eq (v : ℤ) : ceil26 v = (v + 63) / 64 :=
  Int.fdiv_eq_ediv _ (by norm_num)

theorem mkRect_min_le_max (x0 y0 x1 y1 : ℤ) :
    (mkRect x0 y0 x1 y1).minX ≤ (mkRect x0 y0 x1 y1).maxX ∧
    (mkRect x0 y0 x1 y1).minY ≤ (mkRect x0 y0 x1 y1).maxY := by
  simp only [mkRect]
  constructor <;> split <;> omega

theorem mkRect_of_le {x0 y0 x1 y1 : ℤ} (hx : x0 ≤ x1) (hy : y0 ≤ y1) :
    mkRect x0 y0 x1 y1 = ⟨x0, y0, x1, y1⟩ := by
  simp only [mkRect, if_neg (not_lt.2 hx), if_neg (not_lt.2 hy)]

theorem intersect_dims_le (r s : Rect) (hx : s.minX ≤ s.maxX) (hy : s.minY ≤ s.maxY) :
    (r.intersect s).dx ≤ s.dx ∧ (r.intersect s).dy ≤ s.dy := by
  have h1 : min r.maxX s.maxX ≤ s.maxX := min_le_right _ _
  have h2 : s.minX ≤ max r.minX s.minX := le_max_right _ _
  have h3 : min r.maxY s.maxY ≤ s.maxY := min_le_right _ _
  have h4 : s.minY ≤ max r.minY s.minY := le_max_right _ _
  unfold Rect.intersect
  split
  · simp only [zeroRect, Rect.dx, Rect.dy]
    omega
  · simp only [Rect.dx, Rect.dy]
    omega

theorem renderLoop_total (vs : ℤ) (adv : AdvFn) (hadv : ∀ l p, adv l p ≠ none) :
    ∀ (lines : List String) (p bnds : ℤ × ℤ),
    ∃ b : ℤ × ℤ, renderLoop vs adv lines p bnds = some b := by
  intro lines
  induction lines with
  | nil => intro p bnds; exact ⟨bnds, rfl⟩
  | cons line rest ih =>
    intro p bnds
    simp only [renderLoop]
    cases hA : adv line (p.1, p.2 + vs) with
    | none => exact absurd hA (hadv _ _)
    | some p1 => exact ih _ _

theorem renderLoop_inv (vs : ℤ) (adv : AdvFn) (hadv : ∀ l p, adv l p ≠ none)
    (hvs : 0 ≤ vs) :
    ∀ (lines : List String) (p bnds : ℤ × ℤ), 0 ≤ p.2 → 0 ≤ bnds.1 → 0 ≤ bnds.2 →
    ∃ b : ℤ × ℤ, renderLoop vs adv lines p bnds = some b ∧ 0 ≤ b.1 ∧ 0 ≤ b.2 := by
  intro lines
  induction lines with
  | nil => intro p bnds _ h1 h2; exact ⟨bnds, rfl, h1, h2⟩
  | cons line rest ih =>
    intro p bnds hp h1 h2
    simp only [renderLoop]
    cases hA : adv line (p.1, p.2 + vs) with
    | none => exact absurd hA (hadv _ _)
    | some p1 =>
      exact ih (p.1, p.2 + vs) _ (by simpa using by omega)
        (by simp only []; split <;> omega) (by simpa using by omega)

theorem pointToFixed_nonneg (c : Ctx) (x : ℚ) (hx : 0 ≤ x) (hd : 0 ≤ c.dpi) :
    0 ≤ pointToFixed c x := by
  have hq : (0 : ℚ) ≤ x * c.dpi * (64 / 72) :=
    mul_nonneg (mul_nonneg hx hd) (by norm_num)
  unfold pointToFixed truncQ
  rw [if_pos hq]
  exact Int.floor_nonneg.2 hq

theorem ceil26_nonneg (v : ℤ) (h : 0 ≤ v) : 0 ≤ ceil26 v := by
  rw [ceil26_eq]
  omega

theorem maxLenGo_eq_acc (f : String → ℕ) (lines : List String) :
    ∀ a : ℕ, lines.foldl (fun m l => if f l > m then f l else m) a =
      max a ((lines.map f).foldr max 0) := by
  induction lines with
  | nil => intro a; simp
  | cons l rest ih =>
    intro a
    simp only [List.foldl_cons, List.map_cons, List.foldr_cons, ih]
    simp only [Nat.max_def]
    split_ifs <;> omega

theorem maxLenGo_eq (lines : List String) : maxLenGo lines = maxByteLen lines := by
  unfold maxLenGo maxByteLen
  rw [maxLenGo_eq_acc goLen lines 0]
  simp

/-- The bounds formula, shared by several claims: with a nonnegative font
size and DPI, `bounds` returns exactly the rectangle from `(0,0)` to
`(maxByteLen*po + 4*po, numLines*vs + 4*po)`. -/
theorem boundsR_eq (c : Ctx) (lines : List String)
    (hfs : 0 ≤ c.fontSize) (hdpi : 0 ≤ c.dpi) :
    boundsR c lines =
      ⟨0, 0,
       (maxByteLen lines : ℤ) * ceil26 (pointToFixed c c.fontSize)
         + 4 * ceil26 (pointToFixed c c.fontSize),
       (lines.length : ℤ) * ceil26 (pointToFixed c (c.fontSize + 2))
         + 4 * ceil26 (pointToFixed c c.fontSize)⟩ := by
  have hpo : 0 ≤ ceil26 (pointToFixed c c.fontSize) :=
    ceil26_nonneg _ (pointToFixed_nonneg c _ hfs hdpi)
  have hvs : 0 ≤ ceil26 (pointToFixed c (c.fontSize + 2)) :=
    ceil26_nonneg _ (pointToFixed_nonneg c _ (by linarith) hdpi)
  have hm : (0 : ℤ) ≤ (maxByteLen lines : ℤ) := Int.natCast_nonneg _
  have hn : (0 : ℤ) ≤ (lines.length : ℤ) := Int.natCast_nonneg _
  unfold boundsR
  rw [maxLenGo_eq]
  exact mkRect_of_le (by nlinarith) (by nlinarith)

theorem est_normalized (c : Ctx) (lines : List String) :
    (boundsR c lines).minX ≤ (boundsR c lines).maxX ∧
    (boundsR c lines).minY ≤ (boundsR c lines).maxY := by
  unfold boundsR
  exact mkRect_min_le_max _ _ _ _

theorem sscanHexU32_lt (s : String) : sscanHexU32 s < 4294967296 := by
  simp only [sscanHexU32]
  split
  · norm_num
  · split
    · norm_num
    · split <;> omega

theorem po_default : ceil26 (pointToFixed defaultCtx defaultCtx.fontSize) = 15 := by
  have h : pointToFixed defaultCtx defaultCtx.fontSize = 938 := by
    simp only [pointToFixed, truncQ, defaultCtx]
    rw [if_pos (by norm_num)]
    norm_num
  rw [h, ceil26_eq]
  decide

theorem vs_default : ceil26 (pointToFixed defaultCtx (defaultCtx.fontSize + 2)) = 18 := by
  have h : pointToFixed defaultCtx (defaultCtx.fontSize + 2) = 1109 := by
    simp only [pointToFixed, truncQ, defaultCtx]
    rw [if_pos (by norm_num)]
    norm_num
  rw [h, ceil26_eq]
  decide

theorem vsfix_default : pointToFixed defaultCtx (defaultCtx.fontSize + 2) = 1109 := by
  simp only [pointToFixed, truncQ, defaultCtx]
  rw [if_pos (by norm_num)]
  norm_num

/-- The bounds estimate at the default configuration. -/
theorem boundsR_default (lines : List String) :
    boundsR defaultCtx lines =
      mkRect 0 0 ((maxLenGo lines : ℤ) * 15 + 60) ((lines.length : ℤ) * 18 + 60) := by
  simp only [boundsR, po_default, vs_default]
  norm_num

theorem shiftRight_and255 (c k : ℕ) : (c >>> k) &&& 255 = c / 2 ^ k % 2 ^ 8 := by
  have h255 : (255 : ℕ) = 2 ^ 8 - 1 := rfl
  rw [h255, Nat.and_pow_two_sub_one_eq_mod, Nat.shiftRight_eq_div_pow]

theorem and255_eq (c : ℕ) : c &&& 255 = c % 2 ^ 8 := by
  have h255 : (255 : ℕ) = 2 ^ 8 - 1 := rfl
  rw [h255, Nat.and_pow_two_sub_one_eq_mod]

/-! Claim theorems. -/

/-- C6: for every input string, the Color Parser parses the string as an
unsigned 32-bit hexadecimal integer and splits it into the four channels
by bit position: R = bits 31-24, G = bits 23-16, B = bits 15-8,
A = bits 7-0; the parse is total (no length or character-set validation,
no error on malformed input), always yielding a value below 2^32. -/
theorem c6_color_parse (s : String) :
    sscanHexU32 s < 2 ^ 32 ∧
    allocColorImage s =
      ⟨sscanHexU32 s / 2 ^ 24 % 2 ^ 8, sscanHexU32 s / 2 ^ 16 % 2 ^ 8,
       sscanHexU32 s / 2 ^ 8 % 2 ^ 8, sscanHexU32 s % 2 ^ 8⟩ := by
  refine ⟨by exact_mod_cast sscanHexU32_lt s, ?_⟩
  simp only [allocColorImage]
  rw [shiftRight_and255, shiftRight_and255, shiftRight_and255, and255_eq]

/-- C2: for every configuration, every drawing behavior and every line
list, the cropped image returned by `render` has width and height no
larger than the estimate computed by `bounds` on the same inputs. -/
theorem c2_render_le_bounds (c : Ctx) (adv : AdvFn) (lines : List String) (r : Rect)
    (h : render c adv lines = some r) :
    r.dx ≤ (boundsR c lines).dx ∧ r.dy ≤ (boundsR c lines).dy := by
  unfold render at h
  split at h
  · exact absurd h (by simp)
  · injection h with h2
    subst h2
    obtain ⟨hx, hy⟩ := est_normalized c lines
    exact intersect_dims_le _ _ hx hy

/-- C10: on the empty line list the renderer never fails: for every
configuration it returns the image whose bounds are the intersection of
the estimated rectangle with the rectangle (0,0)-(16,16), and at the
default configuration (font size 11, DPI 96) that is exactly the 16x16
rectangle. -/
theorem c10_empty_render (c : Ctx) (adv : AdvFn) :
    render c adv [] = some (Rect.intersect (mkRect 0 0 16 16) (boundsR c [])) ∧
    render defaultCtx adv [] = some (mkRect 0 0 16 16) := by
  have h16 : ceil26 ((0 : ℤ) + 1024) = 16 := by rw [ceil26_eq]; decide
  constructor
  · simp only [render, renderLoop, h16]
  · simp only [render, renderLoop, h16, boundsR_default, maxLenGo, List.foldl_nil,
      List.length_nil]
    norm_num
    decide

/-- C3 fails as stated: the estimator multiplies by the byte length of a
line (Go `len`), not by its character count.  At the default
configuration, the one-character line "é" (two UTF-8 bytes) yields a
width of 90, while the claimed formula `maxLen*po + 4*po` with `maxLen`
the character count 1 and `po = 15` gives 75. -/
theorem c3_counterexample :
    maxCharLen ["é"] = 1 ∧
    ceil26 (pointToFixed defaultCtx defaultCtx.fontSize) = 15 ∧
    (boundsR defaultCtx ["é"]).minX = 0 ∧
    (boundsR defaultCtx ["é"]).maxX = 90 ∧
    (90 : ℤ) ≠ (maxCharLen ["é"] : ℤ) * 15 + 4 * 15 := by
  have hm : maxLenGo ["é"] = 2 := by decide
  refine ⟨by decide, po_default, ?_, ?_, by decide⟩ <;>
    rw [boundsR_default, hm] <;> norm_num [mkRect]

/-- C3 (amended): the Bounds Estimator returns the rectangle from (0,0)
to (maxLen*po + 4*po, numLines*vs + 4*po), where maxLen is the UTF-8
byte count of the longest line (0 if there are none; equal to the
character count for ASCII text), po is the 26.6 ceiling of the pixel
size of one font-size unit at the configured DPI and vs the same for
(font size + 2 points), for any nonnegative font size and DPI. -/
theorem c3_bounds_formula (c : Ctx) (lines : List String)
    (hfs : 0 ≤ c.fontSize) (hdpi : 0 ≤ c.dpi) :
    boundsR c lines =
      ⟨0, 0,
       (maxByteLen lines : ℤ) * ceil26 (pointToFixed c c.fontSize)
         + 4 * ceil26 (pointToFixed c c.fontSize),
       (lines.length : ℤ) * ceil26 (pointToFixed c (c.fontSize + 2))
         + 4 * ceil26 (pointToFixed c c.fontSize)⟩ :=
  boundsR_eq c lines hfs hdpi

theorem c3_bounds_formula_witness :
    (0 : ℚ) ≤ defaultCtx.fontSize ∧ (0 : ℚ) ≤ defaultCtx.dpi ∧
    boundsR defaultCtx ["ab"] =
      ⟨0, 0,
       (maxByteLen ["ab"] : ℤ) * ceil26 (pointToFixed defaultCtx defaultCtx.fontSize)
         + 4 * ceil26 (pointToFixed defaultCtx defaultCtx.fontSize),
       ((["ab"] : List String).length : ℤ)
           * ceil26 (pointToFixed defaultCtx (defaultCtx.fontSize + 2))
         + 4 * ceil26 (pointToFixed defaultCtx defaultCtx.fontSize)⟩ :=
  ⟨by norm_num [defaultCtx], by norm_num [defaultCtx],
   c3_bounds_formula defaultCtx ["ab"] (by norm_num [defaultCtx]) (by norm_num [defaultCtx])⟩

/-- C5 fails as stated: with the character count of the longest line
increased from 2 ("éé") to 3 ("abc") and the line count unchanged, the
returned width strictly decreases (from 120 to 105), because the code
measures lines in bytes, not characters. -/
theorem c5_counterexample :
    maxCharLen ["éé"] ≤ maxCharLen ["abc"] ∧
    maxCharLen ["éé"] ≠ maxCharLen ["abc"] ∧
    (["éé"] : List String).length ≤ (["abc"] : List String).length ∧
    (boundsR defaultCtx ["abc"]).dx < (boundsR defaultCtx ["éé"]).dx := by
  have h1 : maxLenGo ["abc"] = 3 := by decide
  have h2 : maxLenGo ["éé"] = 4 := by decide
  refine ⟨by decide, by decide, by decide, ?_⟩
  rw [boundsR_default, boundsR_default, h1, h2]
  norm_num [mkRect, Rect.dx]

/-- C5 (amended): for all non-empty line lists and nonnegative font size
and DPI, the estimator's width and height are monotonically
non-decreasing in the UTF-8 byte count of the longest line and in the
number of lines. -/
theorem c5_bounds_monotone (c : Ctx) (l1 l2 : List String)
    (hfs : 0 ≤ c.fontSize) (hdpi : 0 ≤ c.dpi)
    (hne1 : l1 ≠ []) (hne2 : l2 ≠ [])
    (hm : maxByteLen l1 ≤ maxByteLen l2) (hn : l1.length ≤ l2.length) :
    (boundsR c l1).dx ≤ (boundsR c l2).dx ∧ (boundsR c l1).dy ≤ (boundsR c l2).dy := by
  have hpo : 0 ≤ ceil26 (pointToFixed c c.fontSize) :=
    ceil26_nonneg _ (pointToFixed_nonneg c _ hfs hdpi)
  have hvs : 0 ≤ ceil26 (pointToFixed c (c.fontSize + 2)) :=
    ceil26_nonneg _ (pointToFixed_nonneg c _ (by linarith) hdpi)
  rw [boundsR_eq c l1 hfs hdpi, boundsR_eq c l2 hfs hdpi]
  simp only [Rect.dx, Rect.dy]
  have hmz : (maxByteLen l1 : ℤ) ≤ (maxByteLen l2 : ℤ) := by exact_mod_cast hm
  have hnz : (l1.length : ℤ) ≤ (l2.length : ℤ) := by exact_mod_cast hn
  constructor
  · nlinarith
  · nlinarith

theorem c5_bounds_monotone_witness :
    (boundsR defaultCtx ["a"]).dx ≤ (boundsR defaultCtx ["ab", "c"]).dx ∧
    (boundsR defaultCtx ["a"]).dy ≤ (boundsR defaultCtx ["ab", "c"]).dy :=
  c5_bounds_monotone defaultCtx ["a"] ["ab", "c"] (by norm_num [defaultCtx])
    (by norm_num [defaultCtx]) (by decide) (by decide) (by decide) (by decide)

set_option maxHeartbeats 2000000 in
/-- C1: for every canvas image whose bounds start at the origin (as do
all canvases this program constructs) and every normalized rendered-text
image, the Placement Calculator agrees, for every anchor string, with
the spec's table: slack ox = canvasWidth - textWidth and
oy = canvasHeight - textHeight, offsets per the 3x3 table with integer
division truncating toward zero, and the destination rectangle placed at
that offset with the text image's own width and height (unknown anchors
hit the usage exit, `none`). -/
theorem c1_placement_calculator (dst src : Rect) (pos : String)
    (hminX : dst.minX = 0) (hminY : dst.minY = 0)
    (hsx : src.minX ≤ src.maxX) (hsy : src.minY ≤ src.maxY) :
    textRect dst src pos = placementSpec dst.dx dst.dy src.dx src.dy pos := by
  have hdx0 : 0 ≤ src.dx := by simp only [Rect.dx]; omega
  have hdy0 : 0 ≤ src.dy := by simp only [Rect.dy]; omega
  have hW : dst.dx = dst.maxX := by simp only [Rect.dx, hminX]; omega
  have hH : dst.dy = dst.maxY := by simp only [Rect.dy, hminY]; omega
  unfold textRect placementSpec anchorPt
  rw [hW, hH, hminX, hminY]
  split_ifs <;>
    first
      | rfl
      | (dsimp only
         rw [mkRect_of_le (by omega) (by omega)]
         simp only [Option.some.injEq, Rect.mk.injEq]
         omega)

theorem c1_placement_calculator_witness :
    textRect ⟨0, 0, 10, 8⟩ ⟨0, 0, 3, 2⟩ "c" =
      placementSpec (Rect.dx ⟨0, 0, 10, 8⟩) (Rect.dy ⟨0, 0, 10, 8⟩)
        (Rect.dx ⟨0, 0, 3, 2⟩) (Rect.dy ⟨0, 0, 3, 2⟩) "c" :=
  c1_placement_calculator ⟨0, 0, 10, 8⟩ ⟨0, 0, 3, 2⟩ "c" rfl rfl (by decide) (by decide)

/-- C4: for every canvas image whose bounds start at the origin (as do
all canvases this program constructs) and every normalized rendered-text
image, anchor "tl" places the text at offset (0,0); and with anchor
"br", whenever the text fits within the canvas, the bottom-right corner
of the destination rectangle coincides with the canvas's bottom-right
corner. -/
theorem c4_corner_anchors (dst src : Rect)
    (hminX : dst.minX = 0) (hminY : dst.minY = 0)
    (hsx : src.minX ≤ src.maxX) (hsy : src.minY ≤ src.maxY) :
    textRect dst src "tl" = some ⟨0, 0, src.dx, src.dy⟩ ∧
    (src.dx ≤ dst.dx → src.dy ≤ dst.dy →
      ∃ r, textRect dst src "br" = some r ∧ r.maxX = dst.maxX ∧ r.maxY = dst.maxY) := by
  have hdx0 : 0 ≤ src.dx := by simp only [Rect.dx]; omega
  have hdy0 : 0 ≤ src.dy := by simp only [Rect.dy]; omega
  constructor
  · have e1 : textRect dst src "tl" =
        some (mkRect (dst.minX + 0) (dst.minY + 0)
          (dst.minX + 0 + src.dx) (dst.minY + 0 + src.dy)) := rfl
    rw [e1, hminX, hminY, mkRect_of_le (by omega) (by omega)]
    simp only [Option.some.injEq, Rect.mk.injEq]
    omega
  · intro hfx hfy
    have e2 : textRect dst src "br" =
        some (mkRect (dst.minX + (dst.maxX - src.dx)) (dst.minY + (dst.maxY - src.dy))
          (dst.minX + (dst.maxX - src.dx) + src.dx)
          (dst.minY + (dst.maxY - src.dy) + src.dy)) := rfl
    rw [e2, hminX, hminY, mkRect_of_le (by omega) (by omega)]
    refine ⟨_, rfl, ?_, ?_⟩ <;> dsimp only <;> omega

theorem c4_corner_anchors_witness :
    (textRect ⟨0, 0, 5, 4⟩ ⟨0, 0, 2, 2⟩ "tl" =
      some ⟨0, 0, Rect.dx ⟨0, 0, 2, 2⟩, Rect.dy ⟨0, 0, 2, 2⟩⟩) ∧
    (∃ r, textRect ⟨0, 0, 5, 4⟩ ⟨0, 0, 2, 2⟩ "br" = some r ∧
      r.maxX = Rect.maxX ⟨0, 0, 5, 4⟩ ∧ r.maxY = Rect.maxY ⟨0, 0, 5, 4⟩) :=
  ⟨(c4_corner_anchors ⟨0, 0, 5, 4⟩ ⟨0, 0, 2, 2⟩ rfl rfl (by decide) (by decide)).1,
   (c4_corner_anchors ⟨0, 0, 5, 4⟩ ⟨0, 0, 2, 2⟩ rfl rfl (by decide) (by decide)).2
     (by decide) (by decide)⟩

theorem anchorPt_none_of_invalid (a : String) (ha : a ∉ validAnchors) :
    ∀ ox oy : ℤ, anchorPt ox oy a = none := by
  intro ox oy
  simp only [validAnchors, List.mem_cons, List.not_mem_nil, or_false, not_or] at ha
  obtain ⟨n1, n2, n3, n4, n5, n6, n7, n8, n9⟩ := ha
  simp [anchorPt, n1, n2, n3, n4, n5, n6, n7, n8, n9]

/-- C9: in image-producing mode (report off), when rendering succeeds,
an anchor string that is not one of the 9 valid symbols makes the
program print usage text and exit with the usage-error status, without
producing any image output file.  (In report mode the anchor is never
consulted, and a canvas decode failure would abort earlier; both are
outside this claim's scenario.) -/
theorem c9_invalid_anchor (outFile inFile a : String) (c : Ctx) (adv : AdvFn)
    (decoded : Rect) (lines : List String)
    (hadv : ∀ l p, adv l p ≠ none)
    (ha : a ∉ validAnchors) :
    mainModel false outFile inFile a c adv decoded lines = ProgOut.usageExit := by
  obtain ⟨b, hb⟩ := renderLoop_total (pointToFixed c (c.fontSize + 2)) adv hadv lines
    (1024, 1024) (0, 0)
  have hrend : render c adv lines =
      some (Rect.intersect (mkRect 0 0 (ceil26 (b.1 + 1024)) (ceil26 (b.2 + 1024)))
        (boundsR c lines)) := by
    unfold render
    rw [hb]
  simp only [mainModel, hrend]
  split
  · rfl
  · simp only [Bool.false_eq_true, if_false]
    unfold textRect
    rw [anchorPt_none_of_invalid a ha]

theorem c9_invalid_anchor_witness :
    mainModel false "out.png" "" "zz" defaultCtx (fun _ p => some p) zeroRect ["hi"] =
      ProgOut.usageExit :=
  c9_invalid_anchor "out.png" "" "zz" defaultCtx (fun _ p => some p) zeroRect ["hi"]
    (fun _ _ => by simp) (by decide)

/-- C8: in report mode at the default configuration (font size 11,
DPI 96), for every input text (with glyph drawing not failing), the
program prints exactly widthxheight of the rendered-text bounds — two
positive integers separated by the letter x — and the run produces no
output file and performs no canvas or compositing work. -/
theorem c8_report_mode (outFile inFile a : String) (adv : AdvFn) (decoded : Rect)
    (lines : List String) (hadv : ∀ l p, adv l p ≠ none) :
    ∃ r, render defaultCtx adv lines = some r ∧
      mainModel true outFile inFile a defaultCtx adv decoded lines =
        ProgOut.reportOut (toString r.dx ++ "x" ++ toString r.dy) ∧
      0 < r.dx ∧ 0 < r.dy := by
  have hvs0 : (0 : ℤ) ≤ pointToFixed defaultCtx (defaultCtx.fontSize + 2) := by
    rw [vsfix_default]
    norm_num
  obtain ⟨b, hb, hb1, hb2⟩ := renderLoop_inv _ adv hadv hvs0 lines (1024, 1024) (0, 0)
    (by norm_num) (by norm_num) (by norm_num)
  have hm : (0 : ℤ) ≤ (maxLenGo lines : ℤ) := Int.natCast_nonneg _
  have hn : (0 : ℤ) ≤ (lines.length : ℤ) := Int.natCast_nonneg _
  have hcx : 16 ≤ ceil26 (b.1 + 1024) := by rw [ceil26_eq]; omega
  have hcy : 16 ≤ ceil26 (b.2 + 1024) := by rw [ceil26_eq]; omega
  have hre : render defaultCtx adv lines =
      some (Rect.intersect (mkRect 0 0 (ceil26 (b.1 + 1024)) (ceil26 (b.2 + 1024)))
        (boundsR defaultCtx lines)) := by
    unfold render
    rw [hb]
  have hminx : (16 : ℤ) ≤ min (ceil26 (b.1 + 1024)) ((maxLenGo lines : ℤ) * 15 + 60) :=
    le_min hcx (by omega)
  have hminy : (16 : ℤ) ≤ min (ceil26 (b.2 + 1024)) ((lines.length : ℤ) * 18 + 60) :=
    le_min hcy (by omega)
  have hint : Rect.intersect (mkRect 0 0 (ceil26 (b.1 + 1024)) (ceil26 (b.2 + 1024)))
      (boundsR defaultCtx lines) =
      ⟨0, 0, min (ceil26 (b.1 + 1024)) ((maxLenGo lines : ℤ) * 15 + 60),
       min (ceil26 (b.2 + 1024)) ((lines.length : ℤ) * 18 + 60)⟩ := by
    rw [boundsR_default, mkRect_of_le (by omega) (by omega),
      mkRect_of_le (by omega) (by omega)]
    unfold Rect.intersect
    rw [if_neg]
    · simp only [max_self]
    · simp only [Rect.isEmpty, max_self, Bool.or_eq_true, decide_eq_true_eq, not_or]
      omega
  refine ⟨_, hre, ?_, ?_, ?_⟩
  · simp only [mainModel, hre, Bool.true_eq_false, and_false, if_false]
    rw [if_pos trivial]
  · rw [hint]
    simp only [Rect.dx]
    omega
  · rw [hint]
    simp only [Rect.dy]
    omega

theorem c8_report_mode_witness :
    ∃ r, render defaultCtx (fun _ p => some p) ["a", "b", "c"] = some r ∧
      mainModel true "" "" "tl" defaultCtx (fun _ p => some p) zeroRect ["a", "b", "c"] =
        ProgOut.reportOut (toString r.dx ++ "x" ++ toString r.dy) ∧
      0 < r.dx ∧ 0 < r.dy :=
  c8_report_mode "" "" "tl" (fun _ p => some p) zeroRect ["a", "b", "c"]
    (fun _ _ => by simp)

theorem hexDigitChar_isHex (d : ℕ) (h : d < 16) : isHexDigitGo (hexDigitChar d) = true := by
  interval_cases d <;> decide

theorem hexDigitChar_not_space (d : ℕ) (h : d < 16) : isSpaceGo (hexDigitChar d) = false := by
  interval_cases d <;> decide

theorem hexDigitChar_ne_nl (d : ℕ) (h : d < 16) : hexDigitChar d ≠ '\n' := by
  interval_cases d <;> decide

theorem skipSpaceScanf_cons (ch : Char) (rest : List Char) (h1 : ch ≠ '\n')
    (h2 : isSpaceGo ch = false) : skipSpaceScanf (ch :: rest) = some (ch :: rest) := by
  simp only [skipSpaceScanf, h1, h2, Bool.false_eq_true, if_false]

theorem hexVal_hexDigitChar (d : ℕ) (h : d < 16) : hexVal (hexDigitChar d) = d := by
  interval_cases d <;> decide

theorem formatHex8_data (col : NRGBA) :
    (formatHex8 col).data =
      [hexDigitChar ((((col.r * 256 + col.g) * 256 + col.b) * 256 + col.a) / 268435456 % 16),
       hexDigitChar ((((col.r * 256 + col.g) * 256 + col.b) * 256 + col.a) / 16777216 % 16),
       hexDigitChar ((((col.r * 256 + col.g) * 256 + col.b) * 256 + col.a) / 1048576 % 16),
       hexDigitChar ((((col.r * 256 + col.g) * 256 + col.b) * 256 + col.a) / 65536 % 16),
       hexDigitChar ((((col.r * 256 + col.g) * 256 + col.b) * 256 + col.a) / 4096 % 16),
       hexDigitChar ((((col.r * 256 + col.g) * 256 + col.b) * 256 + col.a) / 256 % 16),
       hexDigitChar ((((col.r * 256 + col.g) * 256 + col.b) * 256 + col.a) / 16 % 16),
       hexDigitChar ((((col.r * 256 + col.g) * 256 + col.b) * 256 + col.a) % 16)] := by
  have hr : List.range 8 = [0, 1, 2, 3, 4, 5, 6, 7] := rfl
  simp only [formatHex8, hr, List.map_cons, List.map_nil]
  norm_num

/-- Parsing the 8-digit rendering of four byte channels recovers the
combined 32-bit value. -/
theorem sscan_formatHex8 (col : NRGBA) (hr : col.r < 256) (hg : col.g < 256)
    (hb : col.b < 256) (ha : col.a < 256) :
    sscanHexU32 (formatHex8 col) =
      ((col.r * 256 + col.g) * 256 + col.b) * 256 + col.a := by
  have hd : ∀ m : ℕ, (((col.r * 256 + col.g) * 256 + col.b) * 256 + col.a) / m % 16 < 16 :=
    fun m => Nat.mod_lt _ (by norm_num)
  have hd0 : (((col.r * 256 + col.g) * 256 + col.b) * 256 + col.a) % 16 < 16 :=
    Nat.mod_lt _ (by norm_num)
  have hnl : hexDigitChar
      ((((col.r * 256 + col.g) * 256 + col.b) * 256 + col.a) / 268435456 % 16) ≠ '\n' :=
    hexDigitChar_ne_nl _ (hd 268435456)
  have hsp : isSpaceGo (hexDigitChar
      ((((col.r * 256 + col.g) * 256 + col.b) * 256 + col.a) / 268435456 % 16)) = false :=
    hexDigitChar_not_space _ (hd 268435456)
  simp only [sscanHexU32, formatHex8_data, skipSpaceScanf_cons _ _ hnl hsp,
    List.takeWhile_cons,
    hexDigitChar_isHex _ (hd 268435456), hexDigitChar_isHex _ (hd 16777216),
    hexDigitChar_isHex _ (hd 1048576), hexDigitChar_isHex _ (hd 65536),
    hexDigitChar_isHex _ (hd 4096), hexDigitChar_isHex _ (hd 256),
    hexDigitChar_isHex _ (hd 16), hexDigitChar_isHex _ hd0,
    if_true, List.takeWhile_nil, List.isEmpty_cons,
    formatHex8_data, Bool.false_eq_true, if_false,
    List.foldl_cons, List.foldl_nil,
    hexVal_hexDigitChar _ (hd 268435456), hexVal_hexDigitChar _ (hd 16777216),
    hexVal_hexDigitChar _ (hd 1048576), hexVal_hexDigitChar _ (hd 65536),
    hexVal_hexDigitChar _ (hd 4096), hexVal_hexDigitChar _ (hd 256),
    hexVal_hexDigitChar _ (hd 16), hexVal_hexDigitChar _ hd0]
  obtain ⟨v, hv⟩ : ∃ v, ((col.r * 256 + col.g) * 256 + col.b) * 256 + col.a = v := ⟨_, rfl⟩
  rw [hv]
  have hvlt : v < 4294967296 := by omega
  clear hnl hsp hd hd0 hv hr hg hb ha
  split <;> omega

theorem allocColorImage_eq (s : String) :
    allocColorImage s =
      ⟨sscanHexU32 s / 16777216 % 256, sscanHexU32 s / 65536 % 256,
       sscanHexU32 s / 256 % 256, sscanHexU32 s % 256⟩ := by
  simp only [allocColorImage]
  rw [shiftRight_and255, shiftRight_and255, shiftRight_and255, and255_eq]
  norm_num

/-- C7: for every well-formed 8-digit hexadecimal string, parsing it,
formatting the resulting four channel values back to 8 hex digits and
re-parsing yields the same four channel values as the first parse. -/
theorem c7_color_roundtrip (s : String) (h : wellFormed8 s) :
    allocColorImage (formatHex8 (allocColorImage s)) = allocColorImage s := by
  have hvlt : sscanHexU32 s < 4294967296 := sscanHexU32_lt s
  have hY : sscanHexU32 (formatHex8 (allocColorImage s)) = sscanHexU32 s := by
    rw [allocColorImage_eq s]
    rw [sscan_formatHex8 _ (Nat.mod_lt _ (by norm_num)) (Nat.mod_lt _ (by norm_num))
      (Nat.mod_lt _ (by norm_num)) (Nat.mod_lt _ (by norm_num))]
    dsimp only
    omega
  rw [allocColorImage_eq (formatHex8 (allocColorImage s)), hY, allocColorImage_eq s]

theorem c2_render_le_bounds_witness :
    Rect.dx ⟨0, 0, 33, 50⟩ ≤ (boundsR defaultCtx ["hi"]).dx ∧
    Rect.dy ⟨0, 0, 33, 50⟩ ≤ (boundsR defaultCtx ["hi"]).dy :=
  c2_render_le_bounds defaultCtx (fun _ p => some (p.1 + 64, p.2)) ["hi"] ⟨0, 0, 33, 50⟩
    (by
      unfold render
      rw [vsfix_default, boundsR_default]
      decide)

theorem c7_color_roundtrip_witness :
    wellFormed8 "0a0b0cff" ∧
    allocColorImage (formatHex8 (allocColorImage "0a0b0cff")) = allocColorImage "0a0b0cff" :=
  ⟨by constructor <;> decide, c7_color_roundtrip "0a0b0cff" (by constructor <;> decide)⟩

end Carver
